import Mathlib

/-!
Shallow embedding of the cs2-smokes-hub-api core.

The relational store holds five entity types (User, Map, Smoke, Rating,
Report); each table is modelled as a Lean list of rows and the database as a
record of those lists.  The service methods the development reasons about are
translated from the TypeScript sources:

* `RatingsService.upsertRating`   (src/ratings/ratings.service.ts)
* `SmokesService.findByMapId`     (smokes service, in src/main.ts bundle)
* `SmokesService.delete`          (smokes service, in src/main.ts bundle)
* `ReportsService.create`         (src/reports/reports.service.ts)
* `ReportsService.getReportsStatusForSmokes` (src/reports/reports.service.ts)
* `AuthService.validateSteamUser` (src/auth/auth.service.ts)
* `GlobalExceptionFilter.aggregateValidationErrors`
                                  (src/common/filters/global-exception.filter.ts)

Fallible methods return `Except AppError DB`; Prisma identifiers are `Nat`,
rating values are `Int`, timestamps (`createdAt`, `deletedAt`, …) are `Nat`
ticks.  The smoke coordinates (`x_coord`, `y_coord`) are carried through the
services untouched, so they are modelled as `Int` rather than a float type.
Error messages that interpolate an identifier in the source are embedded as
the fixed message text without the interpolated number.
-/

namespace CS2

/-- Error taxonomy of the service layer: `BadRequestException`,
`NotFoundException`, `ForbiddenException` from `@nestjs/common`. -/
inductive AppError where
  | badRequest (msg : String)
  | notFound (msg : String)
  | forbidden (msg : String)
  deriving DecidableEq, Repr

/-- True for `NotFoundException` values. -/
def AppError.isNotFound : AppError → Bool
  | .notFound _ => true
  | _ => false

/-- True for `BadRequestException` values (the VALIDATION condition). -/
def AppError.isBadRequest : AppError → Bool
  | .badRequest _ => true
  | _ => false

/-- True for `ForbiddenException` values. -/
def AppError.isForbidden : AppError → Bool
  | .forbidden _ => true
  | _ => false

/-- User row: internal id, unique Steam id, profile fields.  `username` and
`avatarUrl` are optional because `AuthService.validateSteamUser` stores
whatever the Steam profile supplied, which may be `undefined`. -/
structure User where
  id : Nat
  steamId : String
  username : Option String
  avatarUrl : Option String
  deriving DecidableEq, Repr

/-- Map row (the source entity is called `Map`; renamed here to avoid
clashing with function-space vocabulary). -/
structure GameMap where
  id : Nat
  name : String
  thumbnail : String
  deriving DecidableEq, Repr

/-- Smoke row, including the soft-delete marker `deletedAt`. -/
structure Smoke where
  id : Nat
  title : String
  videoUrl : String
  timestamp : Nat
  x_coord : Int
  y_coord : Int
  authorId : Nat
  mapId : Nat
  createdAt : Nat
  updatedAt : Nat
  deletedAt : Option Nat
  deriving DecidableEq, Repr

/-- Rating row; the schema has a composite unique key `userId_smokeId`. -/
structure Rating where
  userId : Nat
  smokeId : Nat
  value : Int
  deriving DecidableEq, Repr

/-- Report status enumeration; only `PENDING` is ever written by the
embedded operations. -/
inductive ReportStatus where
  | PENDING
  deriving DecidableEq, Repr

/-- Report row; the schema has a composite unique key `reporterId_smokeId`. -/
structure Report where
  reason : String
  status : ReportStatus
  reporterId : Nat
  smokeId : Nat
  deriving DecidableEq, Repr

/-- The relational database: one list of rows per table. -/
structure DB where
  users : List User
  maps : List GameMap
  smokes : List Smoke
  ratings : List Rating
  reports : List Report
  deriving DecidableEq, Repr

/-- Store accesses performed by `upsertRating`, recorded so that the
"no store access before validation" behaviour is visible in the model. -/
inductive StoreOp where
  | smokeFindUnique (id : Nat)
  | userFindUnique (id : Nat)
  | ratingUpsert (userId smokeId : Nat) (value : Int)
  deriving DecidableEq, Repr

/-- Does a rating row belong to the composite key (userId, smokeId)? -/
def ratingPair (userId smokeId : Nat) (r : Rating) : Bool :=
  r.userId == userId && r.smokeId == smokeId

/-- Row-level effect of the Prisma upsert on the `userId_smokeId` key:
overwrite the value of the row for the pair if one exists, otherwise append
a new row. -/
def upsertRows (rs : List Rating) (userId smokeId : Nat) (v : Int) : List Rating :=
  if rs.any (ratingPair userId smokeId) then
    rs.map (fun r => if ratingPair userId smokeId r then { r with value := v } else r)
  else
    rs ++ [{ userId := userId, smokeId := smokeId, value := v }]

/-- RatingsService.upsertRating (src/ratings/ratings.service.ts, lines
13–59).  Validates the value, reads the smoke (rejecting missing or
soft-deleted rows), reads the user, then performs the Prisma upsert on the
`userId_smokeId` key: overwrite the value if a row for the pair exists,
otherwise insert a new row.  The second component is the trace of store
operations issued. -/
def upsertRating (db : DB) (userId smokeId : Nat) (value : Int) :
    Except AppError DB × List StoreOp :=
  if value ≠ 1 ∧ value ≠ -1 then
    (.error (.badRequest "Rating value must be either 1 or -1"), [])
  else
    match db.smokes.find? (fun s => s.id == smokeId) with
    | none => (.error (.notFound "Smoke not found"), [.smokeFindUnique smokeId])
    | some s =>
      if s.deletedAt.isSome then
        (.error (.notFound "Smoke not found"), [.smokeFindUnique smokeId])
      else
        match db.users.find? (fun u => u.id == userId) with
        | none =>
          (.error (.notFound "User not found"),
            [.smokeFindUnique smokeId, .userFindUnique userId])
        | some _ =>
          (.ok { db with ratings := upsertRows db.ratings userId smokeId value },
            [.smokeFindUnique smokeId, .userFindUnique userId,
              .ratingUpsert userId smokeId value])

/-- A sequence of upsertRating calls for one (user, smoke) pair, applied
left to right; any failing call aborts the sequence. -/
def upsertRatingSeq (db : DB) (userId smokeId : Nat) (vs : List Int) :
    Except AppError DB :=
  vs.foldlM (fun d v => (upsertRating d userId smokeId v).1) db

/-- Author block of a smoke response (`author` select in the smokes
service: id, steamId, username mapped to displayName, avatarUrl). -/
structure SmokeAuthor where
  id : Nat
  steamId : String
  displayName : Option String
  avatarUrl : Option String
  deriving DecidableEq, Repr

/-- One row of the raw aggregation query in `SmokesService.findByMapId`:
the smoke's columns plus the COALESCE(SUM(rating value), 0) score. -/
structure RawSmokeRow where
  id : Nat
  title : String
  videoUrl : String
  timestamp : Nat
  x_coord : Int
  y_coord : Int
  createdAt : Nat
  updatedAt : Nat
  authorId : Nat
  mapId : Nat
  score : Int
  deriving DecidableEq, Repr

/-- Response DTO assembled by the smokes service.  The source dereferences
the author lookup without a null check; the embedding keeps the lookup
results as options. -/
structure SmokeResponse where
  id : Nat
  title : String
  videoUrl : String
  timestamp : Nat
  x_coord : Int
  y_coord : Int
  score : Int
  createdAt : Nat
  updatedAt : Nat
  author : Option SmokeAuthor
  map : Option GameMap
  deriving DecidableEq, Repr

/-- SUM(r.value) over the ratings joined to one smoke, with COALESCE to 0
when the left join produces no rating rows. -/
def smokeScore (ratings : List Rating) (smokeId : Nat) : Int :=
  ((ratings.filter (fun r => r.smokeId == smokeId)).map Rating.value).foldl (· + ·) 0

/-- Comparator of the raw query's ORDER BY clause: score descending, then
createdAt descending. -/
def smokeOrder (a b : RawSmokeRow) : Bool :=
  decide (b.score < a.score ∨ (a.score = b.score ∧ b.createdAt ≤ a.createdAt))

/-- The SELECT list of the raw query: the smoke's own columns plus its
aggregated score. -/
def toRawRow (ratings : List Rating) (s : Smoke) : RawSmokeRow :=
  { id := s.id, title := s.title, videoUrl := s.videoUrl,
    timestamp := s.timestamp, x_coord := s.x_coord, y_coord := s.y_coord,
    createdAt := s.createdAt, updatedAt := s.updatedAt,
    authorId := s.authorId, mapId := s.mapId,
    score := smokeScore ratings s.id }

/-- The raw aggregation query of `SmokesService.findByMapId`: the
non-soft-deleted smokes of the map, each with its summed score, ordered by
score descending then creation time descending. -/
def rawSmokeRows (db : DB) (mapId : Nat) : List RawSmokeRow :=
  ((db.smokes.filter (fun s => s.mapId == mapId && s.deletedAt.isNone)).map
    (toRawRow db.ratings)).mergeSort smokeOrder

/-- Per-row enrichment of `SmokesService.findByMapId`: attach the author's
public profile fields and the map's public fields to a raw query row. -/
def enrichRow (db : DB) (row : RawSmokeRow) : SmokeResponse :=
  { id := row.id, title := row.title, videoUrl := row.videoUrl,
    timestamp := row.timestamp, x_coord := row.x_coord,
    y_coord := row.y_coord, score := row.score,
    createdAt := row.createdAt, updatedAt := row.updatedAt,
    author := (db.users.find? (fun u => u.id == row.authorId)).map
      (fun u =>
        { id := u.id, steamId := u.steamId, displayName := u.username,
          avatarUrl := u.avatarUrl }),
    map := db.maps.find? (fun m => m.id == row.mapId) }

/-- SmokesService.findByMapId (smokes service in the main.ts bundle, lines
91–185).  Verifies the map exists (NotFoundException otherwise), runs the
raw aggregation query, then enriches every row with the author's public
profile and the map's public fields. -/
def findByMapId (db : DB) (mapId : Nat) : Except AppError (List SmokeResponse) :=
  match db.maps.find? (fun m => m.id == mapId) with
  | none => .error (.notFound "Map not found")
  | some _ => .ok ((rawSmokeRows db mapId).map (enrichRow db))

/-- SmokesService.delete (smokes service in the main.ts bundle, lines
258–289).  Reads the smoke; missing row or already-set deletedAt marker is
NotFoundException, a non-owning caller is ForbiddenException; otherwise the
row's deletedAt is set to the current time. -/
def deleteSmoke (db : DB) (id userId : Nat) (now : Nat) : Except AppError DB :=
  match db.smokes.find? (fun s => s.id == id) with
  | none => .error (.notFound "Smoke not found")
  | some smoke =>
    if smoke.deletedAt.isSome then
      .error (.notFound "Smoke already deleted")
    else if smoke.authorId ≠ userId then
      .error (.forbidden "You can only delete your own smokes")
    else
      .ok { db with
        smokes := db.smokes.map (fun s =>
          if s.id == id then { s with deletedAt := some now } else s) }

/-- Characters removed by JavaScript `String.prototype.trim`: the JS
whitespace set (which includes the line terminators). -/
def jsTrimmable (c : Char) : Bool :=
  c == ' ' || c == '\t' || c == '\n' || c == '\x0B' || c == '\x0C' || c == '\r' ||
  c == '\u00A0' || c == '\u1680' || (0x2000 ≤ c.toNat && c.toNat ≤ 0x200A) ||
  c == '\u2028' || c == '\u2029' || c == '\u202F' || c == '\u205F' ||
  c == '\u3000' || c == '\uFEFF'

/-- JavaScript `String.prototype.trim` on the embedded strings: strip the
JS whitespace and line-terminator characters from both ends.  (Embedded as a
character-list computation so that it evaluates on concrete inputs.) -/
def jsTrim (s : String) : String :=
  ((s.toList.dropWhile jsTrimmable).reverse.dropWhile jsTrimmable).reverse.asString

/-- The report row inserted by `ReportsService.create`: trimmed reason,
PENDING status, the caller's ids. -/
def newReport (reason : String) (reporterId smokeId : Nat) : Report :=
  { reason := jsTrim reason, status := .PENDING,
    reporterId := reporterId, smokeId := smokeId }

/-- ReportsService.create (src/reports/reports.service.ts, lines 55–106).
Checks, in order: non-empty trimmed reason (BadRequestException), smoke
exists and not soft-deleted (NotFoundException), reporter exists
(NotFoundException), no prior report on the `reporterId_smokeId` key
(BadRequestException "already reported"); then inserts one report with
status PENDING and the trimmed reason. -/
def createReport (db : DB) (smokeId reporterId : Nat) (reason : String) :
    Except AppError DB :=
  if (jsTrim reason).length == 0 then
    .error (.badRequest "Report reason is required")
  else
    match db.smokes.find? (fun s => s.id == smokeId) with
    | none => .error (.notFound "Smoke not found")
    | some s =>
      if s.deletedAt.isSome then
        .error (.notFound "Smoke not found")
      else
        match db.users.find? (fun u => u.id == reporterId) with
        | none => .error (.notFound "User not found")
        | some _ =>
          if db.reports.any (fun r =>
              r.reporterId == reporterId && r.smokeId == smokeId) then
            .error (.badRequest "You have already reported this smoke")
          else
            .ok { db with reports := db.reports ++ [newReport reason reporterId smokeId] }

/-- ReportsService.getReportsStatusForSmokes (src/reports/reports.service.ts,
lines 29–48).  A pure read: fetches the caller's reports whose smokeId is in
the requested list, builds the set of reported smoke ids, and maps every
requested id to a (smokeId, hasReported) pair. -/
def getReportsStatusForSmokes (db : DB) (smokeIds : List Nat) (reporterId : Nat) :
    List (Nat × Bool) :=
  let reports := db.reports.filter (fun r =>
    r.reporterId == reporterId && smokeIds.contains r.smokeId)
  let reportedSmokeIds := reports.map Report.smokeId
  smokeIds.map (fun smokeId => (smokeId, reportedSmokeIds.contains smokeId))

/-- Steam profile bundle handed to `validateSteamUser` by the Steam
strategy: external id, optional displayName and username, and the photo
URLs in ascending resolution (the `value` field of each entry of
`profile.photos`). -/
structure SteamProfile where
  id : String
  displayName : Option String
  username : Option String
  photos : Option (List String)
  deriving DecidableEq, Repr

/-- JavaScript `a || b` on possibly-undefined strings: an absent or empty
left operand yields the right operand. -/
def jsOrStr (a b : Option String) : Option String :=
  match a with
  | some s => if s.isEmpty then b else some s
  | none => b

/-- Avatar selection of `validateSteamUser`:
`profile.photos?.[2]?.value || profile.photos?.[1]?.value || profile.photos?.[0]?.value`. -/
def pickAvatar (photos : Option (List String)) : Option String :=
  let ph := photos.getD []
  jsOrStr (ph.get? 2) (jsOrStr (ph.get? 1) (ph.get? 0))

/-- Auto-increment id for a created user row. -/
def nextUserId (db : DB) : Nat :=
  (db.users.map User.id).foldl max 0 + 1

/-- AuthService.validateSteamUser (src/auth/auth.service.ts, lines 17–48).
Computes `username = profile.displayName || profile.username` and the
avatar URL from the photo list, looks the user up by steamId, then either
updates the found row's username and avatarUrl or creates a new row with
those fields.  Returns the new database and the resulting user row. -/
def validateSteamUser (db : DB) (profile : SteamProfile) : DB × User :=
  let username := jsOrStr profile.displayName profile.username
  let avatarUrl := pickAvatar profile.photos
  match db.users.find? (fun u => u.steamId == profile.id) with
  | some u =>
    ({ db with
        users := db.users.map (fun v =>
          if v.steamId == profile.id then
            { v with username := username, avatarUrl := avatarUrl }
          else v) },
      { u with username := username, avatarUrl := avatarUrl })
  | none =>
    let created : User :=
      { id := nextUserId db, steamId := profile.id,
        username := username, avatarUrl := avatarUrl }
    ({ db with users := db.users ++ [created] }, created)

/-- JavaScript regex word character `\w`: ASCII letters, digits, underscore. -/
def isWordChar (c : Char) : Bool :=
  c.isAlphanum || c == '_'

/-- JavaScript regex whitespace `\s` (ASCII whitespace plus the Unicode
space separators and BOM). -/
def isJsSpace (c : Char) : Bool :=
  c == ' ' || c == '\t' || c == '\n' || c == '\x0B' || c == '\x0C' || c == '\r' ||
  c == '\u00A0' || c == '\u1680' || (0x2000 ≤ c.toNat && c.toNat ≤ 0x200A) ||
  c == '\u2028' || c == '\u2029' || c == '\u202F' || c == '\u205F' ||
  c == '\u3000' || c == '\uFEFF'

/-- JavaScript line terminators, the characters the regex `.` never matches. -/
def isLineTerm (c : Char) : Bool :=
  c == '\n' || c == '\r' || c == '\u2028' || c == '\u2029'

/-- Tail of the filter's regex after the keyword: `\s+(.+)$` with the
engine's backtracking.  The greedy whitespace run is taken whole when a
non-empty, line-terminator-free remainder follows it; when the whole tail is
whitespace the engine gives the final character back to `.+` provided it is
not a line terminator. -/
def matchDetail (t : List Char) : Option (List Char) :=
  let w := t.takeWhile isJsSpace
  let d := t.dropWhile isJsSpace
  if w.isEmpty then none
  else if d.isEmpty then
    match t.getLast? with
    | some c => if 2 ≤ t.length && !isLineTerm c then some [c] else none
    | none => none
  else if d.any isLineTerm then none
  else some d

/-- Keyword alternation of the filter's regex, in source order.  No keyword
is a prefix of another, so at most one can match at a given position. -/
def validationKeywords : List String :=
  ["must", "should", "cannot", "is", "has"]

/-- The regex `^(\w+)\s+(must|should|cannot|is|has)\s+(.+)$` applied to one
validation message (global-exception.filter.ts line 100).  On a match,
returns the field name (group 1) and the string the filter pushes for it:
group 2, a single space, group 3. -/
def parseFieldMessage (m : String) : Option (String × String) :=
  let cs := m.toList
  let field := cs.takeWhile isWordChar
  let rest₁ := cs.dropWhile isWordChar
  if field.isEmpty then none
  else
    let ws := rest₁.takeWhile isJsSpace
    let rest₂ := rest₁.dropWhile isJsSpace
    if ws.isEmpty then none
    else
      match validationKeywords.find? (fun k => k.toList.isPrefixOf rest₂) with
      | none => none
      | some k =>
        match matchDetail (rest₂.drop k.length) with
        | none => none
        | some d => some (field.asString, k ++ " " ++ d.asString)

/-- Push one grouped error into the field dictionary.  The JS source uses a
plain object keyed by field name; the embedding is an insertion-ordered
association list.  (JS additionally enumerates integer-like keys first, which
would only permute the per-field entries; no theorem depends on their
order.) -/
def pushFieldError (fe : List (String × List String)) (f e : String) :
    List (String × List String) :=
  if fe.any (fun p => p.1 == f) then
    fe.map (fun p => if p.1 == f then (p.1, p.2 ++ [e]) else p)
  else
    fe ++ [(f, [e])]

/-- One step of the filter's forEach loop: a message matching the pattern is
pushed under its field, any other message joins the general list. -/
def aggregateStep (acc : List (String × List String) × List String)
    (m : String) : List (String × List String) × List String :=
  match parseFieldMessage m with
  | some fe => (pushFieldError acc.1 fe.1 fe.2, acc.2)
  | none => (acc.1, acc.2 ++ [m])

/-- GlobalExceptionFilter.aggregateValidationErrors
(src/common/filters/global-exception.filter.ts, lines 92–120).  Groups the
messages by field, formats one "field: error, error" entry per field, and
appends the ungroupable messages verbatim. -/
def aggregateValidationErrors (messages : List String) : List String :=
  let acc := messages.foldl aggregateStep ([], [])
  (acc.1.map (fun p => p.1 ++ ": " ++ String.intercalate ", " p.2)) ++ acc.2

/-- The `userId_smokeId` uniqueness constraint of the ratings table: no two
rows share the (userId, smokeId) pair. -/
def ratingsUniquePairs (rs : List Rating) : Prop :=
  rs.Pairwise (fun a b => ¬(a.userId = b.userId ∧ a.smokeId = b.smokeId))

/-- The `reporterId_smokeId` uniqueness constraint of the reports table. -/
def reportsUniquePairs (rs : List Report) : Prop :=
  rs.Pairwise (fun a b => ¬(a.reporterId = b.reporterId ∧ a.smokeId = b.smokeId))

/-! Concrete rows used to instantiate the theorems on sample data. -/

/-- Sample user 1. -/
def userA : User :=
  { id := 1, steamId := "steamA", username := some "Alice", avatarUrl := some "a.png" }

/-- Sample user 2. -/
def userB : User :=
  { id := 2, steamId := "steamB", username := some "Bob", avatarUrl := none }

/-- Sample map. -/
def mapDust : GameMap := { id := 1, name := "dust2", thumbnail := "dust2.png" }

/-- Sample live smoke owned by user 1 on the sample map. -/
def smokeA : Smoke :=
  { id := 1, title := "smoke A", videoUrl := "https://v/a", timestamp := 10,
    x_coord := 3, y_coord := 4, authorId := 1, mapId := 1,
    createdAt := 100, updatedAt := 100, deletedAt := none }

/-- Sample database with two users, one map, one live smoke, no ratings and
no reports. -/
def dbEx : DB :=
  { users := [userA, userB], maps := [mapDust], smokes := [smokeA],
    ratings := [], reports := [] }

/-- Sample database in which user 2 has already reported smoke 1. -/
def dbExReported : DB :=
  { dbEx with
    reports := [{ reason := "bad content", status := .PENDING,
                  reporterId := 2, smokeId := 1 }] }

/-! Helper lemmas about the ratings upsert. -/

/-- Overwriting via the map branch of `upsertRows` keeps both key fields of
every row. -/
theorem upsertRows_preserves_keys (uid sid : Nat) (v : Int) (r : Rating) :
    ((if ratingPair uid sid r then { r with value := v } else r).userId = r.userId ∧
     (if ratingPair uid sid r then { r with value := v } else r).smokeId = r.smokeId) := by
  by_cases h : ratingPair uid sid r <;> simp [h]

/-- Membership in the pair predicate, written with propositional equality. -/
theorem ratingPair_iff (uid sid : Nat) (r : Rating) :
    ratingPair uid sid r = true ↔ (r.userId = uid ∧ r.smokeId = sid) := by
  simp [ratingPair]

/-- Under the uniqueness constraint, at most one row satisfies the pair
predicate, so the filtered list is empty or a singleton. -/
theorem filter_ratingPair_of_unique (rs : List Rating) (uid sid : Nat)
    (h : ratingsUniquePairs rs) (hany : rs.any (ratingPair uid sid) = true) :
    ∃ r₀, rs.filter (ratingPair uid sid) = [r₀] ∧ r₀.userId = uid ∧ r₀.smokeId = sid := by
  have hpw : (rs.filter (ratingPair uid sid)).Pairwise
      (fun a b => ¬(a.userId = b.userId ∧ a.smokeId = b.smokeId)) :=
    List.Pairwise.sublist (List.filter_sublist rs) h
  have hne : rs.filter (ratingPair uid sid) ≠ [] := by
    rcases List.any_eq_true.mp hany with ⟨r, hmem, hp⟩
    intro hnil
    exact absurd hp (by simpa [hnil] using (List.filter_eq_nil_iff.mp hnil) r hmem)
  match hfil : rs.filter (ratingPair uid sid), hpw' : hpw, hne' : hne with
  | [], _, _ => exact absurd hfil hne
  | [r₀], _, _ => ?_
  | r₀ :: r₁ :: rest, _, _ => ?_
  case _ =>
    have h₀ : ratingPair uid sid r₀ = true := by
      have := List.mem_filter.mp (by rw [hfil]; exact List.mem_cons_self ..)
      exact this.2
    rcases (ratingPair_iff uid sid r₀).mp h₀ with ⟨h1, h2⟩
    exact ⟨r₀, rfl, h1, h2⟩
  case _ =>
    exfalso
    have hmem₀ : r₀ ∈ rs.filter (ratingPair uid sid) := by
      rw [hfil]; exact List.mem_cons_self ..
    have hmem₁ : r₁ ∈ rs.filter (ratingPair uid sid) := by
      rw [hfil]; exact List.mem_cons_of_mem _ (List.mem_cons_self ..)
    have h₀ := (ratingPair_iff uid sid r₀).mp (List.mem_filter.mp hmem₀).2
    have h₁ := (ratingPair_iff uid sid r₁).mp (List.mem_filter.mp hmem₁).2
    have hrel := List.pairwise_cons.mp (hfil ▸ hpw)
    exact hrel.1 r₁ (List.mem_cons_self ..)
      ⟨h₀.1.trans h₁.1.symm, h₀.2.trans h₁.2.symm⟩

/-- After the upsert, the ratings rows for the pair are exactly one row
holding the upserted value. -/
theorem filter_upsertRows (rs : List Rating) (uid sid : Nat) (v : Int)
    (h : ratingsUniquePairs rs) :
    (upsertRows rs uid sid v).filter (ratingPair uid sid) =
      [{ userId := uid, smokeId := sid, value := v }] := by
  unfold upsertRows
  by_cases hany : rs.any (ratingPair uid sid)
  · rw [if_pos hany, List.filter_map]
    have hppf : ∀ r : Rating,
        (ratingPair uid sid ∘ fun r =>
          if ratingPair uid sid r then { r with value := v } else r) r =
        ratingPair uid sid r := by
      intro r
      by_cases hp : ratingPair uid sid r
      · have hif : (if ratingPair uid sid r then { r with value := v } else r) =
            { r with value := v } := if_pos hp
        simp only [Function.comp_apply, hif]
        rfl
      · have hif : (if ratingPair uid sid r then { r with value := v } else r) = r :=
          if_neg hp
        simp only [Function.comp_apply, hif]
    rw [List.filter_congr (fun r _ => hppf r)]
    rcases filter_ratingPair_of_unique rs uid sid h hany with ⟨r₀, hfil, h1, h2⟩
    rw [hfil]
    have hp₀ : ratingPair uid sid r₀ = true := (ratingPair_iff uid sid r₀).mpr ⟨h1, h2⟩
    simp [hp₀, h1, h2]
  · rw [if_neg hany, List.filter_append]
    have hnil : rs.filter (ratingPair uid sid) = [] :=
      List.filter_eq_nil_iff.mpr (fun r hr =>
        (List.any_eq_false.mp (Bool.eq_false_iff.mpr hany)) r hr)
    rw [hnil]
    simp [ratingPair]

/-- The upsert preserves the `userId_smokeId` uniqueness constraint. -/
theorem uniquePairs_upsertRows (rs : List Rating) (uid sid : Nat) (v : Int)
    (h : ratingsUniquePairs rs) :
    ratingsUniquePairs (upsertRows rs uid sid v) := by
  unfold upsertRows
  by_cases hany : rs.any (ratingPair uid sid)
  · rw [if_pos hany]
    unfold ratingsUniquePairs
    rw [List.pairwise_map]
    refine h.imp ?_
    intro a b hab
    rcases upsertRows_preserves_keys uid sid v a with ⟨ha1, ha2⟩
    rcases upsertRows_preserves_keys uid sid v b with ⟨hb1, hb2⟩
    rw [ha1, ha2, hb1, hb2]
    exact hab
  · rw [if_neg hany]
    unfold ratingsUniquePairs
    rw [List.pairwise_append]
    refine ⟨h, List.pairwise_singleton .., ?_⟩
    intro a ha b hb
    have hb' : b = { userId := uid, smokeId := sid, value := v } := by
      simpa using hb
    subst hb'
    have hnp := (List.any_eq_false.mp (Bool.eq_false_iff.mpr hany)) a ha
    intro hcon
    exact hnp ((ratingPair_iff uid sid a).mpr ⟨hcon.1, hcon.2⟩)

/-- Outcome of a single valid `upsertRating` call: the ratings table is
rewritten by `upsertRows` and nothing else changes. -/
theorem upsertRating_ok (db : DB) (uid sid : Nat) (v : Int) (s : Smoke) (u : User)
    (hs : db.smokes.find? (fun t => t.id == sid) = some s)
    (hdel : s.deletedAt = none)
    (hu : db.users.find? (fun w => w.id == uid) = some u)
    (hv : v = 1 ∨ v = -1) :
    (upsertRating db uid sid v).1 =
      .ok { db with ratings := upsertRows db.ratings uid sid v } := by
  have hcond : ¬(v ≠ 1 ∧ v ≠ -1) := by rcases hv with h | h <;> simp [h]
  simp [upsertRating, hcond, hs, hdel, hu]

/-- Claim C1: for an existing user, an existing non-soft-deleted smoke and
values in {+1, −1}, any sequence of `upsertRating` calls for the pair
succeeds and leaves exactly one rating row for the pair, holding the value
of the last call (last-write-wins, no history). -/
theorem upsertRating_sequence_last_write_wins
    (db : DB) (uid sid : Nat) (s : Smoke) (u : User)
    (hs : db.smokes.find? (fun t => t.id == sid) = some s)
    (hdel : s.deletedAt = none)
    (hu : db.users.find? (fun w => w.id == uid) = some u)
    (hUq : ratingsUniquePairs db.ratings)
    (vs : List Int) (hne : vs ≠ [])
    (hall : ∀ v ∈ vs, v = 1 ∨ v = -1) :
    ∃ db', upsertRatingSeq db uid sid vs = .ok db' ∧
      db'.ratings.filter (ratingPair uid sid) =
        [{ userId := uid, smokeId := sid, value := vs.getLast hne }] := by
  induction vs generalizing db with
  | nil => exact absurd rfl hne
  | cons v vs ih =>
    have hv : v = 1 ∨ v = -1 := hall v (List.mem_cons_self ..)
    have hok := upsertRating_ok db uid sid v s u hs hdel hu hv
    have hstep : upsertRatingSeq db uid sid (v :: vs) =
        upsertRatingSeq { db with ratings := upsertRows db.ratings uid sid v }
          uid sid vs := by
      unfold upsertRatingSeq
      rw [List.foldlM_cons, hok]
      rfl
    rcases vs with _ | ⟨v', vs'⟩
    · refine ⟨{ db with ratings := upsertRows db.ratings uid sid v }, ?_, ?_⟩
      · rw [hstep]; rfl
      · simpa using filter_upsertRows db.ratings uid sid v hUq
    · have hne' : v' :: vs' ≠ [] := by simp
      rcases ih { db with ratings := upsertRows db.ratings uid sid v } hs hu
          (uniquePairs_upsertRows db.ratings uid sid v hUq) hne'
          (fun w hw => hall w (List.mem_cons_of_mem _ hw)) with ⟨db', hseq, hfil⟩
      refine ⟨db', ?_, ?_⟩
      · rw [hstep]; exact hseq
      · rw [List.getLast_cons hne']
        exact hfil

/-- Witness for C1 on concrete data: user 2 votes +1 then −1 on smoke 1; one
row remains, holding −1. -/
theorem upsertRating_sequence_last_write_wins_witness :
    ∃ db', upsertRatingSeq dbEx 2 1 [1, -1] = .ok db' ∧
      db'.ratings.filter (ratingPair 2 1) =
        [{ userId := 2, smokeId := 1, value := ([1, -1] : List Int).getLast (by simp) }] :=
  upsertRating_sequence_last_write_wins dbEx 2 1 smokeA userB (by decide) (by decide)
    (by decide) (by unfold ratingsUniquePairs dbEx; simp) [1, -1] (by simp)
    (by intro v hv; simpa using hv)

/-- Claim C6: a rating value other than exactly +1 or −1 makes
`upsertRating` fail with the VALIDATION condition, and the store-operation
trace is empty — no smoke read, no user read, no rating write. -/
theorem upsertRating_invalid_value_rejected_without_store_access
    (db : DB) (userId smokeId : Nat) (value : Int)
    (h1 : value ≠ 1) (h2 : value ≠ -1) :
    (upsertRating db userId smokeId value).1 =
      .error (.badRequest "Rating value must be either 1 or -1") ∧
    (upsertRating db userId smokeId value).2 = [] := by
  constructor <;> simp [upsertRating, h1, h2]

/-- Witness for C6 at value 2 on concrete data. -/
theorem upsertRating_invalid_value_rejected_without_store_access_witness :
    (upsertRating dbEx 1 1 2).1 =
      .error (.badRequest "Rating value must be either 1 or -1") ∧
    (upsertRating dbEx 1 1 2).2 = [] :=
  upsertRating_invalid_value_rejected_without_store_access dbEx 1 1 2
    (by decide) (by decide)

/-- Updating in place the rows whose id matches commutes with `find?` on
that id, when the update preserves the id. -/
theorem find?_map_ite (l : List Smoke) (id : Nat) (g : Smoke → Smoke)
    (hg : ∀ s, (g s).id = s.id) :
    (l.map (fun s => if s.id == id then g s else s)).find? (fun s => s.id == id) =
      (l.find? (fun s => s.id == id)).map g := by
  induction l with
  | nil => rfl
  | cons s l ih =>
    by_cases h : (s.id == id) = true
    · have hgh : ((g s).id == id) = true := by rw [hg s]; exact h
      rw [List.map_cons, if_pos h, List.find?_cons, List.find?_cons]
      simp only [hgh, h]
      rfl
    · have h' : (s.id == id) = false := Bool.eq_false_iff.mpr h
      rw [List.map_cons, if_neg h, List.find?_cons, List.find?_cons]
      simp only [h']
      exact ih

/-- Evaluation of `deleteSmoke` when the smoke lookup fails. -/
theorem deleteSmoke_eq_none (db : DB) (id uid now : Nat)
    (h : db.smokes.find? (fun s => s.id == id) = none) :
    deleteSmoke db id uid now = .error (.notFound "Smoke not found") := by
  unfold deleteSmoke
  rw [h]

/-- Evaluation of `deleteSmoke` when the smoke lookup succeeds. -/
theorem deleteSmoke_eq_some (db : DB) (id uid now : Nat) (s : Smoke)
    (h : db.smokes.find? (fun t => t.id == id) = some s) :
    deleteSmoke db id uid now =
      (if s.deletedAt.isSome then .error (.notFound "Smoke already deleted")
       else if s.authorId ≠ uid then
         .error (.forbidden "You can only delete your own smokes")
       else .ok { db with
         smokes := db.smokes.map (fun t =>
           if t.id == id then { t with deletedAt := some now } else t) }) := by
  unfold deleteSmoke
  rw [h]

/-- Claim C3: `SmokesService.delete` answers NOT_FOUND exactly when the smoke
is absent or already soft-deleted, answers FORBIDDEN exactly when it exists,
is live and the caller is not its owner (so FORBIDDEN never occurs for an
absent smoke), and a second delete of a successfully deleted smoke answers
NOT_FOUND for every caller. -/
theorem deleteSmoke_error_characterization (db : DB) (id uid now : Nat) :
    ((∃ msg, deleteSmoke db id uid now = .error (.notFound msg)) ↔
      (db.smokes.find? (fun s => s.id == id) = none ∨
        ∃ s, db.smokes.find? (fun s => s.id == id) = some s ∧ s.deletedAt ≠ none)) ∧
    ((∃ msg, deleteSmoke db id uid now = .error (.forbidden msg)) ↔
      (∃ s, db.smokes.find? (fun s => s.id == id) = some s ∧ s.deletedAt = none ∧
        s.authorId ≠ uid)) ∧
    (∀ db' uid' now', deleteSmoke db id uid now = .ok db' →
      ∃ msg, deleteSmoke db' id uid' now' = .error (.notFound msg)) := by
  refine ⟨?_, ?_, ?_⟩
  · constructor
    · rintro ⟨msg, hmsg⟩
      rcases hfind : db.smokes.find? (fun s => s.id == id) with _ | s
      · exact Or.inl hfind
      · rw [deleteSmoke_eq_some db id uid now s hfind] at hmsg
        refine Or.inr ⟨s, hfind, ?_⟩
        by_cases hdel : s.deletedAt.isSome
        · exact Option.isSome_iff_ne_none.mp hdel
        · rw [if_neg hdel] at hmsg
          by_cases hown : s.authorId ≠ uid
          · rw [if_pos hown] at hmsg; exact absurd hmsg (by simp)
          · rw [if_neg hown] at hmsg; exact absurd hmsg (by simp)
    · rintro (hnone | ⟨s, hfind, hdel⟩)
      · exact ⟨"Smoke not found", deleteSmoke_eq_none db id uid now hnone⟩
      · refine ⟨"Smoke already deleted", ?_⟩
        rw [deleteSmoke_eq_some db id uid now s hfind,
          if_pos (Option.isSome_iff_ne_none.mpr hdel)]
  · constructor
    · rintro ⟨msg, hmsg⟩
      rcases hfind : db.smokes.find? (fun s => s.id == id) with _ | s
      · rw [deleteSmoke_eq_none db id uid now hfind] at hmsg
        exact absurd hmsg (by simp)
      · rw [deleteSmoke_eq_some db id uid now s hfind] at hmsg
        by_cases hdel : s.deletedAt.isSome
        · rw [if_pos hdel] at hmsg; exact absurd hmsg (by simp)
        · rw [if_neg hdel] at hmsg
          by_cases hown : s.authorId ≠ uid
          · exact ⟨s, hfind, Option.not_isSome_iff_eq_none.mp hdel, hown⟩
          · rw [if_neg hown] at hmsg; exact absurd hmsg (by simp)
    · rintro ⟨s, hfind, hdel, hown⟩
      refine ⟨"You can only delete your own smokes", ?_⟩
      rw [deleteSmoke_eq_some db id uid now s hfind, if_neg (by simp [hdel]),
        if_pos hown]
  · intro db' uid' now' hok
    rcases hfind : db.smokes.find? (fun s => s.id == id) with _ | s
    · rw [deleteSmoke_eq_none db id uid now hfind] at hok
      exact absurd hok (by simp)
    · rw [deleteSmoke_eq_some db id uid now s hfind] at hok
      by_cases hdel : s.deletedAt.isSome
      · rw [if_pos hdel] at hok; exact absurd hok (by simp)
      · rw [if_neg hdel] at hok
        by_cases hown : s.authorId ≠ uid
        · rw [if_pos hown] at hok; exact absurd hok (by simp)
        · rw [if_neg hown] at hok
          have hdb' : db' = { db with
              smokes := db.smokes.map (fun t =>
                if t.id == id then { t with deletedAt := some now } else t) } :=
            (Except.ok.inj hok).symm
          have hfind' : db'.smokes.find? (fun t => t.id == id) =
              some { s with deletedAt := some now } := by
            rw [hdb']
            show (db.smokes.map (fun t =>
                if t.id == id then { t with deletedAt := some now } else t)).find?
                (fun t => t.id == id) = _
            rw [find?_map_ite db.smokes id (fun t => { t with deletedAt := some now })
              (fun t => rfl), hfind]
            rfl
          refine ⟨"Smoke already deleted", ?_⟩
          rw [deleteSmoke_eq_some db' id uid' now' _ hfind']
          rfl

/-- Witness for C3 on concrete data: deleting an absent smoke answers
NOT_FOUND via the first equivalence. -/
theorem deleteSmoke_error_characterization_witness :
    ∃ msg, deleteSmoke dbEx 999 1 5 = .error (.notFound msg) :=
  (deleteSmoke_error_characterization dbEx 999 1 5).1.mpr (Or.inl (by decide))

/-- Claim C9: a successful delete writes only the target smoke's `deletedAt`
field.  The users, maps, ratings and reports tables are returned unchanged
(including rating and report rows referencing the deleted smoke), every
other smoke row survives untouched, the table keeps its size, and the target
row reappears with all fields equal except `deletedAt = some now`. -/
theorem deleteSmoke_frame (db : DB) (id uid now : Nat) (db' : DB)
    (h : deleteSmoke db id uid now = .ok db') :
    db'.users = db.users ∧ db'.maps = db.maps ∧
    db'.ratings = db.ratings ∧ db'.reports = db.reports ∧
    db'.smokes.length = db.smokes.length ∧
    (∀ s ∈ db.smokes, s.id ≠ id → s ∈ db'.smokes) ∧
    (∀ s, db.smokes.find? (fun t => t.id == id) = some s →
      db'.smokes.find? (fun t => t.id == id) =
        some { s with deletedAt := some now }) := by
  rcases hfind : db.smokes.find? (fun t => t.id == id) with _ | s₀
  · rw [deleteSmoke_eq_none db id uid now hfind] at h
    exact absurd h (by simp)
  · rw [deleteSmoke_eq_some db id uid now s₀ hfind] at h
    by_cases hdel : s₀.deletedAt.isSome
    · rw [if_pos hdel] at h; exact absurd h (by simp)
    · rw [if_neg hdel] at h
      by_cases hown : s₀.authorId ≠ uid
      · rw [if_pos hown] at h; exact absurd h (by simp)
      · rw [if_neg hown] at h
        have hdb' : db' = { db with
            smokes := db.smokes.map (fun t =>
              if t.id == id then { t with deletedAt := some now } else t) } :=
          (Except.ok.inj h).symm
        subst hdb'
        refine ⟨rfl, rfl, rfl, rfl, List.length_map .., ?_, ?_⟩
        · intro s hmem hne
          refine List.mem_map.mpr ⟨s, hmem, ?_⟩
          rw [if_neg (by simpa using hne)]
        · intro s hfind'
          have hss : s = s₀ := by
            rw [hfind'] at hfind
            exact (Option.some.inj hfind.symm).symm
          subst hss
          show (db.smokes.map (fun t =>
              if t.id == id then { t with deletedAt := some now } else t)).find?
              (fun t => t.id == id) = _
          rw [find?_map_ite db.smokes id (fun t => { t with deletedAt := some now })
            (fun t => rfl), hfind']
          rfl

/-- Witness for C9 on concrete data: user 1 deletes their own smoke 1;
ratings and reports are untouched. -/
theorem deleteSmoke_frame_witness :
    ∃ db', deleteSmoke dbEx 1 1 5 = .ok db' ∧
      db'.ratings = dbEx.ratings ∧ db'.reports = dbEx.reports := by
  refine ⟨_, rfl, ?_⟩
  have h := deleteSmoke_frame dbEx 1 1 5 _ rfl
  exact ⟨h.2.2.1, h.2.2.2.1⟩

/-- Evaluation of `createReport` once the reason check and the smoke lookup
have been settled. -/
theorem createReport_eq_valid (db : DB) (sid rid : Nat) (reason : String)
    (s : Smoke) (hreason : ¬((jsTrim reason).length == 0) = true)
    (hs : db.smokes.find? (fun t => t.id == sid) = some s) :
    createReport db sid rid reason =
      (if s.deletedAt.isSome then .error (.notFound "Smoke not found")
       else
         match db.users.find? (fun w => w.id == rid) with
         | none => .error (.notFound "User not found")
         | some _ =>
           if db.reports.any (fun r => r.reporterId == rid && r.smokeId == sid) then
             .error (.badRequest "You have already reported this smoke")
           else
             .ok { db with reports := db.reports ++ [newReport reason rid sid] }) := by
  unfold createReport
  rw [if_neg hreason, hs]

/-- Claim C4: with the smoke live and the reporter existing, a create-report
call for a (reporter, smoke) pair that already has a report fails with the
VALIDATION condition; a successful call only appends one PENDING report, and
the at-most-one-report-per-pair invariant is preserved — report creation is
never an upsert. -/
theorem createReport_duplicate_rejected
    (db : DB) (sid rid : Nat) (reason : String) (s : Smoke) (u : User)
    (hs : db.smokes.find? (fun t => t.id == sid) = some s)
    (hdel : s.deletedAt = none)
    (hu : db.users.find? (fun w => w.id == rid) = some u) :
    ((∃ r ∈ db.reports, r.reporterId = rid ∧ r.smokeId = sid) →
      ∃ msg, createReport db sid rid reason = .error (.badRequest msg)) ∧
    (∀ db', createReport db sid rid reason = .ok db' →
      db'.reports = db.reports ++ [newReport reason rid sid]) ∧
    (reportsUniquePairs db.reports →
      ∀ db', createReport db sid rid reason = .ok db' →
        reportsUniquePairs db'.reports) := by
  refine ⟨?_, ?_, ?_⟩
  · rintro ⟨r, hmem, hr1, hr2⟩
    by_cases hreason : ((jsTrim reason).length == 0) = true
    · exact ⟨"Report reason is required", by unfold createReport; rw [if_pos hreason]⟩
    · refine ⟨"You have already reported this smoke", ?_⟩
      rw [createReport_eq_valid db sid rid reason s hreason hs,
        if_neg (by simp [hdel]), hu]
      have hany : db.reports.any (fun r => r.reporterId == rid && r.smokeId == sid) :=
        List.any_eq_true.mpr ⟨r, hmem, by simp [hr1, hr2]⟩
      rw [if_pos hany]
  · intro db' hok
    by_cases hreason : ((jsTrim reason).length == 0) = true
    · rw [show createReport db sid rid reason =
          .error (.badRequest "Report reason is required") by
        unfold createReport; rw [if_pos hreason]] at hok
      exact absurd hok (by simp)
    · rw [createReport_eq_valid db sid rid reason s hreason hs,
        if_neg (by simp [hdel]), hu] at hok
      by_cases hany : db.reports.any (fun r => r.reporterId == rid && r.smokeId == sid)
      · rw [if_pos hany] at hok; exact absurd hok (by simp)
      · rw [if_neg hany] at hok
        rw [← Except.ok.inj hok]
  · intro hUq db' hok
    by_cases hreason : ((jsTrim reason).length == 0) = true
    · rw [show createReport db sid rid reason =
          .error (.badRequest "Report reason is required") by
        unfold createReport; rw [if_pos hreason]] at hok
      exact absurd hok (by simp)
    · rw [createReport_eq_valid db sid rid reason s hreason hs,
        if_neg (by simp [hdel]), hu] at hok
      by_cases hany : db.reports.any (fun r => r.reporterId == rid && r.smokeId == sid)
      · rw [if_pos hany] at hok; exact absurd hok (by simp)
      · rw [if_neg hany] at hok
        rw [← Except.ok.inj hok]
        show reportsUniquePairs (db.reports ++ [_])
        unfold reportsUniquePairs
        rw [List.pairwise_append]
        refine ⟨hUq, List.pairwise_singleton .., ?_⟩
        intro a ha b hb
        have hb' : b = newReport reason rid sid := by simpa using hb
        subst hb'
        have hnp := (List.any_eq_false.mp (Bool.eq_false_iff.mpr hany)) a ha
        intro hcon
        exact hnp (by simp [newReport] at hcon; simp [hcon.1, hcon.2])

/-- Witness for C4 on concrete data: user 2 reports smoke 1 a second time
and is rejected with the VALIDATION condition. -/
theorem createReport_duplicate_rejected_witness :
    ∃ msg, createReport dbExReported 1 2 "still bad content" =
      .error (.badRequest msg) :=
  (createReport_duplicate_rejected dbExReported 1 2 "still bad content"
      smokeA userB (by decide) (by decide) (by decide)).1
    ⟨{ reason := "bad content", status := .PENDING, reporterId := 2, smokeId := 1 },
      by unfold dbExReported dbEx; simp, rfl, rfl⟩

/-- Claim C10: `getReportsStatusForSmokes` returns one entry per requested
smoke id, positionally aligned with the input (duplicates included), whose
flag is true exactly when the reporter has a report row for that id; being a
pure function of the database it performs no writes. -/
theorem getReportsStatus_pointwise (db : DB) (smokeIds : List Nat) (rid : Nat) :
    (getReportsStatusForSmokes db smokeIds rid).length = smokeIds.length ∧
    ∀ i sid, smokeIds.get? i = some sid →
      ∃ b, (getReportsStatusForSmokes db smokeIds rid).get? i = some (sid, b) ∧
        (b = true ↔ ∃ r ∈ db.reports, r.reporterId = rid ∧ r.smokeId = sid) := by
  constructor
  · exact List.length_map ..
  · intro i sid hget
    have hmem : sid ∈ smokeIds := by
      rcases List.get?_eq_some.mp hget with ⟨hlt, hgeteq⟩
      exact hgeteq ▸ List.get_mem ..
    refine ⟨((db.reports.filter (fun r =>
        r.reporterId == rid && smokeIds.contains r.smokeId)).map
          Report.smokeId).contains sid, ?_, ?_⟩
    · show (smokeIds.map _).get? i = _
      rw [List.get?_map, hget]
      rfl
    · constructor
      · intro hb
        rcases List.mem_map.mp (List.mem_of_elem_eq_true hb) with ⟨r, hrf, hfr⟩
        rcases List.mem_filter.mp hrf with ⟨hmemr, hp⟩
        rcases Bool.and_eq_true _ _ |>.mp hp with ⟨h1, h2⟩
        exact ⟨r, hmemr, by simpa using h1, hfr⟩
      · rintro ⟨r, hmemr, h1, h2⟩
        apply List.elem_eq_true_of_mem
        refine List.mem_map.mpr ⟨r, List.mem_filter.mpr ⟨hmemr, ?_⟩, h2⟩
        rw [h1, h2]
        exact Bool.and_eq_true _ _ |>.mpr
          ⟨beq_self_eq_true rid, List.elem_eq_true_of_mem hmem⟩

/-- Witness for C10 on concrete data: a duplicated requested id yields its
own positional entry with the correct flag. -/
theorem getReportsStatus_pointwise_witness :
    ∃ b, (getReportsStatusForSmokes dbExReported [1, 7, 1] 2).get? 0 = some (1, b) ∧
      (b = true ↔ ∃ r ∈ dbExReported.reports, r.reporterId = 2 ∧ r.smokeId = 1) :=
  (getReportsStatus_pointwise dbExReported [1, 7, 1] 2).2 0 1 rfl

/-- The ORDER BY comparator is transitive. -/
theorem smokeOrder_trans (a b c : RawSmokeRow)
    (hab : smokeOrder a b = true) (hbc : smokeOrder b c = true) :
    smokeOrder a c = true := by
  simp only [smokeOrder, decide_eq_true_eq] at hab hbc ⊢
  omega

/-- The ORDER BY comparator is total. -/
theorem smokeOrder_total (a b : RawSmokeRow) :
    (smokeOrder a b || smokeOrder b a) = true := by
  simp only [smokeOrder, Bool.or_eq_true, decide_eq_true_eq]
  omega

/-- On success, `findByMapId` returns the enrichment of the raw query rows. -/
theorem findByMapId_ok_shape (db : DB) (mapId : Nat) (rows : List SmokeResponse)
    (h : findByMapId db mapId = .ok rows) :
    rows = (rawSmokeRows db mapId).map (enrichRow db) := by
  unfold findByMapId at h
  rcases hfind : db.maps.find? (fun m => m.id == mapId) with _ | m
  · rw [hfind] at h; exact absurd h (by simp)
  · rw [hfind] at h
    exact (Except.ok.inj h).symm

/-- Claim C2: for an existing map, every non-soft-deleted smoke of that map
appears in the `findByMapId` result with a score equal to the signed sum of
its current rating values; a smoke with no ratings is included with score 0
rather than dropped. -/
theorem findByMapId_includes_all_scores (db : DB) (mapId : Nat)
    (rows : List SmokeResponse) (h : findByMapId db mapId = .ok rows) :
    ∀ s ∈ db.smokes, s.mapId = mapId → s.deletedAt = none →
      ∃ row ∈ rows, row.id = s.id ∧
        row.score = ((db.ratings.filter (fun r => r.smokeId == s.id)).map
          Rating.value).sum ∧
        (db.ratings.filter (fun r => r.smokeId == s.id) = [] → row.score = 0) := by
  have hrows := findByMapId_ok_shape db mapId rows h
  subst hrows
  intro s hs hmap hdel
  have hpred : (s.mapId == mapId && s.deletedAt.isNone) = true := by
    simp [hmap, hdel]
  have hrowmem : toRawRow db.ratings s ∈ rawSmokeRows db mapId := by
    unfold rawSmokeRows
    rw [(List.mergeSort_perm _ smokeOrder).mem_iff]
    exact List.mem_map.mpr ⟨s, List.mem_filter.mpr ⟨hs, hpred⟩, rfl⟩
  refine ⟨_, List.mem_map.mpr ⟨_, hrowmem, rfl⟩, rfl, ?_, ?_⟩
  · show smokeScore db.ratings s.id = _
    unfold smokeScore
    exact List.sum_eq_foldl.symm
  · intro hnil
    show smokeScore db.ratings s.id = 0
    unfold smokeScore
    rw [hnil]
    rfl

/-- Witness for C2 on concrete data: the unrated smoke 1 appears with
score 0. -/
theorem findByMapId_includes_all_scores_witness :
    ∃ rows, findByMapId dbEx 1 = .ok rows ∧
      ∃ row ∈ rows, row.id = 1 ∧ row.score = 0 := by
  refine ⟨_, rfl, ?_⟩
  obtain ⟨row, hmem, hid, hsc, h0⟩ :=
    findByMapId_includes_all_scores dbEx 1 _ rfl smokeA (by simp [dbEx]) rfl rfl
  exact ⟨row, hmem, hid, h0 rfl⟩

/-- Claim C5: the `findByMapId` result is ordered by descending score, ties
broken by descending creation time. -/
theorem findByMapId_sorted (db : DB) (mapId : Nat)
    (rows : List SmokeResponse) (h : findByMapId db mapId = .ok rows) :
    rows.Pairwise (fun a b =>
      b.score < a.score ∨ (a.score = b.score ∧ b.createdAt ≤ a.createdAt)) := by
  have hrows := findByMapId_ok_shape db mapId rows h
  subst hrows
  rw [List.pairwise_map]
  unfold rawSmokeRows
  refine (List.sorted_mergeSort smokeOrder_trans smokeOrder_total _).imp ?_
  intro a b hab
  exact (decide_eq_true_eq ..).mp hab

/-- Witness for C5 on concrete data. -/
theorem findByMapId_sorted_witness :
    ∃ rows, findByMapId dbEx 1 = .ok rows ∧
      rows.Pairwise (fun a b =>
        b.score < a.score ∨ (a.score = b.score ∧ b.createdAt ≤ a.createdAt)) :=
  ⟨_, rfl, findByMapId_sorted dbEx 1 _ rfl⟩

/-- Sample Steam profile with four avatar images, unknown to `dbEx`. -/
def steamProfileC : SteamProfile :=
  { id := "steamC", displayName := some "Carol", username := none,
    photos := some ["a.jpg", "b.jpg", "c.jpg", "d.jpg"] }

/-- Sample Steam profile with a single avatar image, unknown to `dbEx`. -/
def steamProfileD : SteamProfile :=
  { id := "steamD", displayName := some "Dan", username := none,
    photos := some ["dx.jpg"] }

/-- Counterexample to C7 as stated: with four supplied avatar images (all
non-empty), the created user's avatar URL is the element at index 2, not the
last element of the list. -/
theorem validateSteamUser_avatar_counterexample :
    (validateSteamUser dbEx steamProfileC).2.avatarUrl = some "c.jpg" ∧
    steamProfileC.photos = some ["a.jpg", "b.jpg", "c.jpg", "d.jpg"] ∧
    (["a.jpg", "b.jpg", "c.jpg", "d.jpg"] : List String).getLast? = some "d.jpg" ∧
    (some "c.jpg" : Option String) ≠ some "d.jpg" :=
  ⟨by decide, rfl, rfl, by decide⟩

/-- Avatar selection on an all-non-empty photo list: the element at index 2,
falling back to index 1 then index 0 — that is, the element at index
min 2 (length − 1), the last element only for lists of at most three
entries. -/
theorem pickAvatar_min_index (ph : List String) (hne : ∀ t ∈ ph, t ≠ "") :
    pickAvatar (some ph) = ph.get? (min 2 (ph.length - 1)) := by
  match ph with
  | [] => rfl
  | [a] => rfl
  | [a, b] =>
    have hb : b.isEmpty = false :=
      Bool.eq_false_iff.mpr (fun hemp =>
        hne b (by simp) ((String.isEmpty_iff b).mp hemp))
    simp [pickAvatar, jsOrStr, hb]
  | a :: b :: c :: t =>
    have hc : c.isEmpty = false :=
      Bool.eq_false_iff.mpr (fun hemp =>
        hne c (by simp) ((String.isEmpty_iff c).mp hemp))
    have hmin : min 2 ((a :: b :: c :: t).length - 1) = 2 := by
      simp [List.length_cons]
    rw [hmin]
    simp [pickAvatar, jsOrStr, hc]

/-- Claim C7, amended: for a fresh external id, the created user's display
name is the profile's display name with fallback to the username field, and
its avatar URL is the photo at index 2 falling back to index 1 then index 0
(the last, highest-resolution element only when at most three images are
supplied), absent exactly when no avatar images were supplied. -/
theorem validateSteamUser_new_user_profile
    (db : DB) (p : SteamProfile) (ph : List String)
    (hnew : db.users.find? (fun u => u.steamId == p.id) = none)
    (hph : p.photos = some ph) (hne : ∀ t ∈ ph, t ≠ "") :
    ((validateSteamUser db p).2.avatarUrl = ph.get? (min 2 (ph.length - 1))) ∧
    ((validateSteamUser db p).2.avatarUrl = none ↔ ph = []) ∧
    (∀ d, p.displayName = some d → d ≠ "" →
      (validateSteamUser db p).2.username = some d) ∧
    (p.displayName = none → (validateSteamUser db p).2.username = p.username) ∧
    (validateSteamUser db p).2 ∈ (validateSteamUser db p).1.users := by
  have hres : validateSteamUser db p =
      ({ db with users := db.users ++
          [{ id := nextUserId db, steamId := p.id,
             username := jsOrStr p.displayName p.username,
             avatarUrl := pickAvatar p.photos }] },
        { id := nextUserId db, steamId := p.id,
          username := jsOrStr p.displayName p.username,
          avatarUrl := pickAvatar p.photos }) := by
    unfold validateSteamUser
    rw [hnew]
  rw [hres]
  have havatar : pickAvatar p.photos = ph.get? (min 2 (ph.length - 1)) := by
    rw [hph]
    exact pickAvatar_min_index ph hne
  refine ⟨havatar, ?_, ?_, ?_, ?_⟩
  · show pickAvatar p.photos = none ↔ ph = []
    rw [havatar, List.get?_eq_none]
    rw [show (ph = []) = (ph.length = 0) from propext List.length_eq_zero.symm]
    omega
  · intro d hd hdne
    show jsOrStr p.displayName p.username = some d
    rw [hd]
    simp [jsOrStr, (String.isEmpty_iff d).not.mpr hdne,
      Bool.eq_false_iff.mpr ((String.isEmpty_iff d).not.mpr hdne)]
  · intro hd
    show jsOrStr p.displayName p.username = p.username
    rw [hd]
    rfl
  · exact List.mem_append.mpr (Or.inr (by simp))

/-- Witness for the amended C7 on concrete data: a single supplied image
becomes the created user's avatar. -/
theorem validateSteamUser_new_user_profile_witness :
    (validateSteamUser dbEx steamProfileD).2.avatarUrl =
      (["dx.jpg"] : List String).get?
        (min 2 ((["dx.jpg"] : List String).length - 1)) :=
  (validateSteamUser_new_user_profile dbEx steamProfileD ["dx.jpg"]
    (by decide) rfl (by decide)).1

/-- Keys of the field dictionary in insertion order: fold the parsed field
names, appending each name on first sight. -/
def collectKeys (acc : List String) (ks : List String) : List String :=
  ks.foldl (fun acc k => if k ∈ acc then acc else acc ++ [k]) acc

/-- Processing one more key extends the collected keys on first sight. -/
theorem collectKeys_append_singleton (acc ks : List String) (k : String) :
    collectKeys acc (ks ++ [k]) =
      (if k ∈ collectKeys acc ks then collectKeys acc ks
       else collectKeys acc ks ++ [k]) := by
  unfold collectKeys
  rw [List.foldl_append]
  rfl

/-- Membership in the collected keys. -/
theorem mem_collectKeys (acc ks : List String) (x : String) :
    x ∈ collectKeys acc ks ↔ x ∈ acc ∨ x ∈ ks := by
  induction ks generalizing acc with
  | nil => simp [collectKeys]
  | cons k ks ih =>
    show x ∈ collectKeys (if k ∈ acc then acc else acc ++ [k]) ks ↔ _
    rw [ih]
    by_cases hk : k ∈ acc
    · rw [if_pos hk]
      constructor
      · rintro (h | h)
        · exact Or.inl h
        · exact Or.inr (List.mem_cons_of_mem _ h)
      · rintro (h | h)
        · exact Or.inl h
        · rcases List.mem_cons.mp h with h | h
          · exact Or.inl (h ▸ hk)
          · exact Or.inr h
    · rw [if_neg hk]
      constructor
      · rintro (h | h)
        · rcases List.mem_append.mp h with h | h
          · exact Or.inl h
          · exact Or.inr (List.mem_cons.mpr (Or.inl (by simpa using h)))
        · exact Or.inr (List.mem_cons_of_mem _ h)
      · rintro (h | h)
        · exact Or.inl (List.mem_append.mpr (Or.inl h))
        · rcases List.mem_cons.mp h with h | h
          · exact Or.inl (List.mem_append.mpr (Or.inr (by simp [h])))
          · exact Or.inr h

/-- The collected keys never repeat. -/
theorem nodup_collectKeys (acc ks : List String) (h : acc.Nodup) :
    (collectKeys acc ks).Nodup := by
  induction ks generalizing acc with
  | nil => exact h
  | cons k ks ih =>
    show (collectKeys (if k ∈ acc then acc else acc ++ [k]) ks).Nodup
    by_cases hk : k ∈ acc
    · rw [if_pos hk]; exact ih acc h
    · rw [if_neg hk]
      exact ih _ (by simp [List.nodup_append, h, hk])

/-- Starting from no keys, the collected keys count the distinct fields. -/
theorem length_collectKeys (ks : List String) :
    (collectKeys [] ks).length = ks.dedup.length :=
  List.Perm.length_eq
    ((List.perm_ext_iff_of_nodup (nodup_collectKeys [] ks List.nodup_nil)
        (List.nodup_dedup ks)).mpr
      (fun a => by rw [mem_collectKeys, List.mem_dedup]; simp))

/-- The keys of the dictionary after a push: unchanged when the field was
present, extended by the field otherwise. -/
theorem pushFieldError_keys (fe : List (String × List String)) (f e : String) :
    (pushFieldError fe f e).map Prod.fst =
      (if fe.any (fun p => p.1 == f) then fe.map Prod.fst
       else fe.map Prod.fst ++ [f]) := by
  unfold pushFieldError
  by_cases hany : fe.any (fun p => p.1 == f)
  · rw [if_pos hany, if_pos hany, List.map_map]
    refine List.map_congr_left ?_
    intro p _
    by_cases hq : p.1 = f <;> simp [hq]
  · rw [if_neg hany, if_neg hany, List.map_append]
    rfl

/-- A field occurs among the dictionary keys exactly when some entry carries
it. -/
theorem any_key_iff_mem (fe : List (String × List String)) (f : String) :
    fe.any (fun p => p.1 == f) = true ↔ f ∈ fe.map Prod.fst := by
  rw [List.any_eq_true]
  constructor
  · rintro ⟨p, hp, hbeq⟩
    exact List.mem_map.mpr ⟨p, hp, by simpa using hbeq⟩
  · intro h
    rcases List.mem_map.mp h with ⟨p, hp, hfst⟩
    exact ⟨p, hp, by simp [hfst]⟩

/-- Invariant of the filter's forEach fold: the general list collects the
non-matching messages in order, the dictionary keys are the distinct parsed
fields in first-occurrence order, and each entry holds exactly the pushed
strings of its field, in order. -/
theorem aggregateFold_invariant (ms : List String) :
    (ms.foldl aggregateStep ([], [])).2 =
      ms.filter (fun m => (parseFieldMessage m).isNone) ∧
    (ms.foldl aggregateStep ([], [])).1.map Prod.fst =
      collectKeys [] ((ms.filterMap parseFieldMessage).map Prod.fst) ∧
    ∀ p ∈ (ms.foldl aggregateStep ([], [])).1, p.2 =
      ((ms.filterMap parseFieldMessage).filter
        (fun q => q.1 == p.1)).map Prod.snd := by
  induction ms using List.reverseRecOn with
  | nil =>
    refine ⟨rfl, rfl, ?_⟩
    intro p hp
    exact absurd hp (by simp)
  | append_singleton ms m ih =>
    rcases ih with ⟨ihg, ihk, ihe⟩
    have hfold : (ms ++ [m]).foldl aggregateStep ([], []) =
        aggregateStep (ms.foldl aggregateStep ([], [])) m := by
      rw [List.foldl_append]
      rfl
    rw [hfold]
    rcases hparse : parseFieldMessage m with _ | fe
    · have hstep : aggregateStep (ms.foldl aggregateStep ([], [])) m =
          ((ms.foldl aggregateStep ([], [])).1,
            (ms.foldl aggregateStep ([], [])).2 ++ [m]) := by
        unfold aggregateStep
        rw [hparse]
      rw [hstep]
      have hfm : (ms ++ [m]).filterMap parseFieldMessage =
          ms.filterMap parseFieldMessage := by
        rw [List.filterMap_append]
        simp [hparse]
      refine ⟨?_, ?_, ?_⟩
      · show (ms.foldl aggregateStep ([], [])).2 ++ [m] = _
        rw [List.filter_append, ihg]
        simp [hparse]
      · rw [hfm]
        exact ihk
      · intro p hp
        rw [hfm]
        exact ihe p hp
    · obtain ⟨f, e⟩ := fe
      have hstep : aggregateStep (ms.foldl aggregateStep ([], [])) m =
          (pushFieldError (ms.foldl aggregateStep ([], [])).1 f e,
            (ms.foldl aggregateStep ([], [])).2) := by
        unfold aggregateStep
        rw [hparse]
      rw [hstep]
      have hfm : (ms ++ [m]).filterMap parseFieldMessage =
          ms.filterMap parseFieldMessage ++ [(f, e)] := by
        rw [List.filterMap_append]
        simp [hparse]
      refine ⟨?_, ?_, ?_⟩
      · show (ms.foldl aggregateStep ([], [])).2 = _
        rw [List.filter_append, ihg]
        simp [hparse]
      · rw [hfm, List.map_append, pushFieldError_keys]
        simp only [List.map_cons, List.map_nil]
        rw [collectKeys_append_singleton, ← ihk]
        by_cases hmem : f ∈ (ms.foldl aggregateStep ([], [])).1.map Prod.fst
        · rw [if_pos ((any_key_iff_mem _ f).mpr hmem), if_pos hmem]
        · rw [if_neg (fun h => hmem ((any_key_iff_mem _ f).mp h)), if_neg hmem]
      · intro p hp
        rw [hfm, List.filter_append]
        unfold pushFieldError at hp
        by_cases hany : (ms.foldl aggregateStep ([], [])).1.any (fun q => q.1 == f)
        · rw [if_pos hany] at hp
          rcases List.mem_map.mp hp with ⟨p₀, hp₀, hpe⟩
          by_cases hq : (p₀.1 == f) = true
          · rw [if_pos hq] at hpe
            have h1 : p₀.1 = f := by simpa using hq
            rw [← hpe]
            show p₀.2 ++ [e] = _
            have hfil : ([(f, e)].filter (fun q => q.1 == (p₀.1, p₀.2 ++ [e]).1)) =
                [(f, e)] := by
              simp [h1]
            rw [hfil, List.map_append]
            show p₀.2 ++ [e] =
              ((ms.filterMap parseFieldMessage).filter
                (fun q => q.1 == p₀.1)).map Prod.snd ++ [e]
            rw [ihe p₀ hp₀]
          · rw [if_neg hq] at hpe
            rw [← hpe]
            have h1 : ¬ p₀.1 = f := by simpa using hq
            have hne : (f == p₀.1) = false := by
              rw [beq_eq_false_iff_ne]
              exact fun h => h1 h.symm
            have hfil : ([(f, e)].filter (fun q => q.1 == p₀.1)) = [] := by
              simp [hne]
            show p₀.2 = _
            rw [hfil, List.append_nil]
            exact ihe p₀ hp₀
        · rw [if_neg hany] at hp
          rcases List.mem_append.mp hp with hp | hp
          · have hne : (f == p.1) = false := by
              rw [beq_eq_false_iff_ne]
              intro hc
              exact hany (List.any_eq_true.mpr ⟨p, hp, by simp [hc.symm]⟩)
            have hfil : ([(f, e)].filter (fun q => q.1 == p.1)) = [] := by
              simp [hne]
            rw [hfil, List.append_nil]
            exact ihe p hp
          · have hp' : p = (f, [e]) := by simpa using hp
            subst hp'
            have hnil : (ms.filterMap parseFieldMessage).filter
                (fun q => q.1 == (f, [e]).1) = [] := by
              rw [List.filter_eq_nil_iff]
              intro q hqmem hbeq
              have hfk : f ∈ (ms.foldl aggregateStep ([], [])).1.map Prod.fst := by
                rw [ihk, mem_collectKeys]
                exact Or.inr (List.mem_map.mpr ⟨q, hqmem, by simpa using hbeq⟩)
              exact hany ((any_key_iff_mem _ f).mpr hfk)
            rw [hnil]
            simp

/-- Claim C8: the aggregation returns a single array consisting of one entry
per distinct parsed field — the field name, a colon, and that field's error
details joined by commas — followed by every non-matching message verbatim,
in order. -/
theorem aggregateValidationErrors_grouping (messages : List String) :
    ∃ fieldEntries,
      aggregateValidationErrors messages =
        fieldEntries ++ messages.filter (fun m => (parseFieldMessage m).isNone) ∧
      fieldEntries.length =
        ((messages.filterMap parseFieldMessage).map Prod.fst).dedup.length ∧
      ∀ f e, (f, e) ∈ messages.filterMap parseFieldMessage →
        (f ++ ": " ++ String.intercalate ", "
            (((messages.filterMap parseFieldMessage).filter
              (fun q => q.1 == f)).map Prod.snd)) ∈ fieldEntries := by
  obtain ⟨hg, hk, he⟩ := aggregateFold_invariant messages
  refine ⟨(messages.foldl aggregateStep ([], [])).1.map
      (fun p => p.1 ++ ": " ++ String.intercalate ", " p.2), ?_, ?_, ?_⟩
  · show ((messages.foldl aggregateStep ([], [])).1.map
        (fun p => p.1 ++ ": " ++ String.intercalate ", " p.2)) ++
      (messages.foldl aggregateStep ([], [])).2 = _
    rw [hg]
  · rw [List.length_map, ← length_collectKeys, ← hk, List.length_map]
  · intro f e hmem
    have hf : f ∈ (messages.foldl aggregateStep ([], [])).1.map Prod.fst := by
      rw [hk, mem_collectKeys]
      exact Or.inr (List.mem_map.mpr ⟨(f, e), hmem, rfl⟩)
    rcases List.mem_map.mp hf with ⟨p, hp, hpf⟩
    refine List.mem_map.mpr ⟨p, hp, ?_⟩
    rw [he p hp, hpf]

end CS2
